import Mathlib

/-!
sing-shadowsocks: key derivation and the "none" method.

A shallow embedding of `shadowsocks.go` (`Key`) and `none.go` (the null
method, its client sessions and the relay service), with the properties of
the specification stated and proved over it.

Bytes are natural numbers; a byte string is a `List Nat`.
-/

namespace Shadowsocks

/-! ## Key derivation (`shadowsocks.go`) -/

/-- Digest size of `crypto/md5` in bytes (`h.Size()`, the constant `md5.Size`). -/
def md5Size : Nat := 16

/-- Per-round left-rotation amounts of MD5 (RFC 1321). -/
def md5.shifts : List Nat :=
  [7, 12, 17, 22, 7, 12, 17, 22, 7, 12, 17, 22, 7, 12, 17, 22,
   5, 9, 14, 20, 5, 9, 14, 20, 5, 9, 14, 20, 5, 9, 14, 20,
   4, 11, 16, 23, 4, 11, 16, 23, 4, 11, 16, 23, 4, 11, 16, 23,
   6, 10, 15, 21, 6, 10, 15, 21, 6, 10, 15, 21, 6, 10, 15, 21]

/-- Per-round additive constants of MD5 (RFC 1321). -/
def md5.consts : List Nat :=
  [0xd76aa478, 0xe8c7b756, 0x242070db, 0xc1bdceee,
   0xf57c0faf, 0x4787c62a, 0xa8304613, 0xfd469501,
   0x698098d8, 0x8b44f7af, 0xffff5bb1, 0x895cd7be,
   0x6b901122, 0xfd987193, 0xa679438e, 0x49b40821,
   0xf61e2562, 0xc040b340, 0x265e5a51, 0xe9b6c7aa,
   0xd62f105d, 0x02441453, 0xd8a1e681, 0xe7d3fbc8,
   0x21e1cde6, 0xc33707d6, 0xf4d50d87, 0x455a14ed,
   0xa9e3e905, 0xfcefa3f8, 0x676f02d9, 0x8d2a4c8a,
   0xfffa3942, 0x8771f681, 0x6d9d6122, 0xfde5380c,
   0xa4beea44, 0x4bdecfa9, 0xf6bb4b60, 0xbebfbc70,
   0x289b7ec6, 0xeaa127fa, 0xd4ef3085, 0x04881d05,
   0xd9d4d039, 0xe6db99e5, 0x1fa27cf8, 0xc4ac5665,
   0xf4292244, 0x432aff97, 0xab9423a7, 0xfc93a039,
   0x655b59c3, 0x8f0ccc92, 0xffeff47d, 0x85845dd1,
   0x6fa87e4f, 0xfe2ce6e0, 0xa3014314, 0x4e0811a1,
   0xf7537e82, 0xbd3af235, 0x2ad7d2bb, 0xeb86d391]

/-- Rotate a 32-bit word left by `c` bits. -/
def md5.rotl (x c : Nat) : Nat := ((x <<< c) ||| (x >>> (32 - c))) % 4294967296

/-- Four little-endian bytes of a 32-bit word. -/
def md5.wordBytes (w : Nat) : List Nat :=
  [w % 256, w / 256 % 256, w / 65536 % 256, w / 16777216 % 256]

/-- The sixteen little-endian 32-bit words of a 64-byte block. -/
def md5.words : Nat → List Nat → List Nat
  | 0, _ => []
  | k + 1, b0 :: b1 :: b2 :: b3 :: rest =>
    (b0 + 256 * b1 + 65536 * b2 + 16777216 * b3) :: md5.words k rest
  | _ + 1, _ => []

/-- The padded message: a `0x80` byte, zeros up to 56 modulo 64, then the bit length
as eight little-endian bytes. -/
def md5.pad (msg : List Nat) : List Nat :=
  msg ++ [128] ++ List.replicate ((119 - msg.length % 64) % 64) 0
    ++ (List.range 8).map fun i => (8 * msg.length) / 256 ^ i % 256

/-- One of the 64 steps on the state `(a, b, c, d)`. -/
def md5.step (m : List Nat) (st : Nat × Nat × Nat × Nat) (i : Nat) : Nat × Nat × Nat × Nat :=
  let (a, b, c, d) := st
  let nb := b ^^^ 4294967295
  let nd := d ^^^ 4294967295
  let f :=
    if i < 16 then (b &&& c) ||| (nb &&& d)
    else if i < 32 then (d &&& b) ||| (nd &&& c)
    else if i < 48 then b ^^^ c ^^^ d
    else c ^^^ (b ||| nd)
  let g :=
    if i < 16 then i
    else if i < 32 then (5 * i + 1) % 16
    else if i < 48 then (3 * i + 5) % 16
    else (7 * i) % 16
  let x := (f + a + md5.consts.getD i 0 + m.getD g 0) % 4294967296
  (d, (b + md5.rotl x (md5.shifts.getD i 0)) % 4294967296, b, c)

/-- Process the padded message block by block. -/
def md5.blocks : Nat → List Nat → Nat × Nat × Nat × Nat → Nat × Nat × Nat × Nat
  | 0, _, st => st
  | k + 1, data, st =>
    let m := md5.words 16 (data.take 64)
    let r := (List.range 64).foldl (md5.step m) st
    md5.blocks k (data.drop 64)
      ((st.1 + r.1) % 4294967296, (st.2.1 + r.2.1) % 4294967296,
       (st.2.2.1 + r.2.2.1) % 4294967296, (st.2.2.2 + r.2.2.2) % 4294967296)

/-- The MD5 digest of a byte string (`crypto/md5`, RFC 1321): what `h.Sum(nil)` returns
after the bytes were written to a fresh `md5.New()`. -/
def md5 (msg : List Nat) : List Nat :=
  let data := md5.pad (msg.map (· % 256))
  let r := md5.blocks (data.length / 64) data (1732584193, 4023233417, 2562383102, 271733878)
  md5.wordBytes r.1 ++ md5.wordBytes r.2.1 ++ md5.wordBytes r.2.2.1 ++ md5.wordBytes r.2.2.2

/-- Ways in which a run of `Key` can fail to return a key. -/
inductive KeyFault
  | sliceBounds   -- `b[:keySize]` with a negative `keySize` panics
  | noProgress    -- the loop budget ran out before `len(b) >= keySize`
  deriving DecidableEq, Repr

/-- The `for len(b) < keySize` loop of `Key`. One round feeds the hash `prev` then
`password` (`h.Write(prev); h.Write(password)`), appends the digest to `b`
(`b = h.Sum(b)`), keeps the last `h.Size()` bytes of `b` as the next `prev` and
resets the hash; `b` then ends with a whole digest, so the slice
`b[len(b)-h.Size():]` is always in bounds. The first argument bounds the number of
rounds; `none` means the bound was reached with `len(b) < keySize` still true. -/
def Key.loop (password : List Nat) (keySize : Int) :
    Nat → List Nat → List Nat → Option (List Nat)
  | 0, b, _ => if (b.length : Int) < keySize then none else some b
  | rounds + 1, b, prev =>
    if (b.length : Int) < keySize then
      let b' := b ++ md5 (prev ++ password)
      Key.loop password keySize rounds b' (b'.drop (b'.length - md5Size))
    else some b

/-- The function `Key(password, keySize)`: run the loop from empty `b` and `prev`,
then return `b[:keySize]`. Every round adds the 16 bytes of a digest, so `keySize`
rounds are always enough. -/
def Key (password : List Nat) (keySize : Int) : Except KeyFault (List Nat) :=
  match Key.loop password keySize keySize.toNat [] [] with
  | none => .error .noProgress
  | some b => if keySize < 0 then .error .sliceBounds else .ok (b.take keySize.toNat)

/-- The digest chain in the words of the specification: the concatenation of the
first `k` digests `D1 ++ D2 ++ ...`, where each digest is the hash of the previous
digest followed by the password; `prev` is the digest before the first one
(empty at the start, so that `D1 = md5 password`). -/
def digestChain (password : List Nat) : Nat → List Nat → List Nat
  | 0, _ => []
  | k + 1, prev =>
    let digest := md5 (prev ++ password)
    digest ++ digestChain password k digest

/-! ## Errors, destinations and the address codec

The address codec (`M.SocksaddrSerializer`), the buffer type and the copy
helpers come from libraries outside the two source files; they are modelled from
the wire format and the contracts given in the specification. -/

/-- Errors surfaced by the operations of `none.go`. -/
inductive Error
  | transport (code : Nat)      -- a read or write on the underlying transport failed
  | eof                         -- the source ended before the declared length was consumed
  | unknownType (tag : Nat)     -- address type tag other than 1, 3 and 4
  | domainTooLong (len : Nat)   -- declared domain length above the maximum of 255
  deriving DecidableEq, Repr

/-- Modelled from the spec: the Destination Address (`M.Socksaddr`), a tagged union
of an IPv4 address, a domain name or an IPv6 address, each with a port. -/
inductive Socksaddr
  | ipv4 (ip : List Nat) (port : Nat)
  | fqdn (name : List Nat) (port : Nat)
  | ipv6 (ip : List Nat) (port : Nat)
  deriving DecidableEq, Repr

/-- Modelled from the spec: the invariant of a Destination Address. The port is a
16-bit unsigned value, the length of a domain name fits in one byte, and an IPv4
or IPv6 address has 4 or 16 bytes. -/
def Socksaddr.Valid : Socksaddr → Bool
  | .ipv4 ip port => decide (ip.length = 4) && decide (port < 65536)
  | .fqdn name port => decide (name.length ≤ 255) && decide (port < 65536)
  | .ipv6 ip port => decide (ip.length = 16) && decide (port < 65536)

/-- The two bytes of a port, big-endian. -/
def portBytes (port : Nat) : List Nat := [port / 256 % 256, port % 256]

/-- The port held in the first two bytes of `bs`, big-endian. -/
def readPort : List Nat → Nat
  | hi :: lo :: _ => hi * 256 + lo
  | _ => 0

/-- Modelled from the spec: the wire encoding of a destination,
`[type:1][addr][port:2 big-endian]` with type 1 for IPv4 (4 address bytes), 4 for
IPv6 (16 bytes) and 3 for a domain (`[len:1][len bytes of name]`). -/
def SocksaddrSerializer.encode : Socksaddr → List Nat
  | .ipv4 ip port => 1 :: (ip ++ portBytes port)
  | .fqdn name port => 3 :: (name.length % 256) :: (name ++ portBytes port)
  | .ipv6 ip port => 4 :: (ip ++ portBytes port)

/-- Modelled from the spec: `AddrPortLen`, the exact byte length the wire encoding
of the destination occupies. -/
def SocksaddrSerializer.AddrPortLen (destination : Socksaddr) : Nat :=
  (SocksaddrSerializer.encode destination).length

/-- Modelled from the spec: `ReadAddrPort` on a buffer, the inverse of the encoding.
It returns the decoded destination and the bytes left in the buffer, and fails if
the tag is unrecognized, if a domain length exceeds the maximum, or if the source
is exhausted before the declared length is consumed. -/
def SocksaddrSerializer.ReadAddrPort (source : List Nat) : Except Error (Socksaddr × List Nat) :=
  match source with
  | [] => .error .eof
  | tag :: rest =>
    if tag = 1 then
      if rest.length < 4 + 2 then .error .eof
      else .ok (.ipv4 (rest.take 4) (readPort (rest.drop 4)), rest.drop (4 + 2))
    else if tag = 4 then
      if rest.length < 16 + 2 then .error .eof
      else .ok (.ipv6 (rest.take 16) (readPort (rest.drop 16)), rest.drop (16 + 2))
    else if tag = 3 then
      match rest with
      | [] => .error .eof
      | len :: name =>
        if 255 < len then .error (.domainTooLong len)
        else if name.length < len + 2 then .error .eof
        else .ok (.fqdn (name.take len) (readPort (name.drop len)), name.drop (len + 2))
    else .error (.unknownType tag)

/-! ## Connections -/

/-- Outcome of a failing `Write` on a connection: how many bytes went through
before the failure, and the error returned. -/
structure WriteFault where
  accepted : Nat
  err : Error
  deriving DecidableEq, Repr

/-- Modelled from the spec: the underlying transport (`net.Conn`), a raw
bidirectional byte stream or datagram channel. `written` logs, call by call, the bytes the
connection accepted from each `Write` (for a stream the peer receives their
concatenation, for a datagram connection every entry is one datagram). `faults`
scripts the coming `Write` calls: a `some` entry makes the call fail, a `none`
entry or an exhausted script lets it succeed. `inbound` holds the bytes that
will arrive from the peer before the stream ends. -/
structure NetConn where
  written : List (List Nat)
  faults : List (Option WriteFault)
  inbound : List Nat
  deriving DecidableEq, Repr

/-- The byte stream the peer of a connection has received. -/
def NetConn.stream (c : NetConn) : List Nat := c.written.flatten

/-- Every scripted write of the connection succeeds. -/
def NetConn.healthy (c : NetConn) : Bool := c.faults.all Option.isNone

/-- The next `Write` on the connection succeeds. -/
def NetConn.accepts (c : NetConn) : Bool :=
  match c.faults with
  | some _ :: _ => false
  | _ => true

/-- `conn.Write(b)`: returns the connection afterwards, the count `n` and the error. -/
def NetConn.Write (c : NetConn) (b : List Nat) : NetConn × Nat × Option Error :=
  match c.faults with
  | [] => ({ c with written := c.written ++ [b] }, b.length, none)
  | none :: rest => ({ c with written := c.written ++ [b], faults := rest }, b.length, none)
  | some f :: rest =>
    ({ c with written := c.written ++ [b.take f.accepted], faults := rest },
      (b.take f.accepted).length, some f.err)

/-- Modelled from the spec: `WriteAddrPort(conn, destination)`, which writes the
encoded destination onto the connection and fails only if that write fails. -/
def SocksaddrSerializer.WriteAddrPort (conn : NetConn) (destination : Socksaddr) :
    NetConn × Option Error :=
  let r := conn.Write (SocksaddrSerializer.encode destination)
  (r.1, r.2.2)

/-- Modelled from the spec: `header := buf.With(buffer.ExtendHeader(AddrPortLen(d)))`
followed by `WriteAddrPort(header, d)`: the buffer grows backward by the length of
the header and the encoded destination fills the new region, which is the same as
prepending the header to the content of the buffer. -/
def SocksaddrSerializer.WriteAddrPortHeader (buffer : List Nat) (destination : Socksaddr) :
    Except Error (List Nat) :=
  .ok (SocksaddrSerializer.encode destination ++ buffer)

/-- Modelled from the spec: `WriteAddrPort(buffer, destination)` on a buffer with
room left, which appends the encoded destination to the content. -/
def SocksaddrSerializer.WriteAddrPortBuffer (buffer : List Nat) (destination : Socksaddr) :
    Except Error (List Nat) :=
  .ok (buffer ++ SocksaddrSerializer.encode destination)

/-- Modelled from the spec: `ReadAddrPort(conn)` on a stream: decodes one header
from the bytes that arrive and leaves the rest of the stream unread. -/
def SocksaddrSerializer.ReadAddrPortConn (conn : NetConn) : Except Error (Socksaddr × NetConn) :=
  match SocksaddrSerializer.ReadAddrPort conn.inbound with
  | .error err => .error err
  | .ok (destination, rest) => .ok (destination, { conn with inbound := rest })

/-- Modelled from the spec: `bufio.Copy(dst, src)`. The reader `src` is given by the
chunks its successive reads return before the end of the stream; each chunk is
written to `dst`, and the copy stops at the first failing write. -/
def bufio.Copy (dst : NetConn) : List (List Nat) → NetConn × Nat × Option Error
  | [] => (dst, 0, none)
  | chunk :: rest =>
    let w := dst.Write chunk
    match w.2.2 with
    | some err => (w.1, w.2.1, some err)
    | none =>
      let r := bufio.Copy w.1 rest
      (r.1, w.2.1 + r.2.1, r.2.2)

/-! ## The null method: client stream session (`none.go`) -/

/-- The session `noneConn`: the wrapped connection, the handshake flag and the
destination. -/
structure noneConn where
  Conn : NetConn
  handshake : Bool
  destination : Socksaddr
  deriving DecidableEq, Repr

/-- The method `clientHandshake`: write the address header, and set the flag when
the write succeeded. -/
def noneConn.clientHandshake (c : noneConn) : noneConn × Option Error :=
  let w := SocksaddrSerializer.WriteAddrPort c.Conn c.destination
  match w.2 with
  | some err => ({ c with Conn := w.1 }, some err)
  | none => ({ c with Conn := w.1, handshake := true }, none)

/-- The factory `DialConn`: build the session with the flag set, then run the
handshake and return its error. -/
def NoneMethod.DialConn (conn : NetConn) (destination : Socksaddr) : noneConn × Option Error :=
  let shadowsocksConn : noneConn := { Conn := conn, handshake := true, destination := destination }
  shadowsocksConn.clientHandshake

/-- The factory `DialEarlyConn`: build the session with the flag unset (its zero
value) and write nothing. -/
def NoneMethod.DialEarlyConn (conn : NetConn) (destination : Socksaddr) : noneConn :=
  { Conn := conn, handshake := false, destination := destination }

/-- The method `Write` of the session. -/
def noneConn.Write (c : noneConn) (b : List Nat) : noneConn × Nat × Option Error :=
  if c.handshake then
    let w := c.Conn.Write b
    ({ c with Conn := w.1 }, w.2.1, w.2.2)
  else
    let h := SocksaddrSerializer.WriteAddrPort c.Conn c.destination
    match h.2 with
    | some err => ({ c with Conn := h.1 }, 0, some err)
    | none =>
      let w := h.1.Write b
      ({ c with Conn := w.1, handshake := true }, w.2.1, w.2.2)

/-- The method `ReadFrom` of the session. The reader is given by its chunks. The
library helper `bufio.ReadFrom0`, which the source calls with the session itself
as the writer, is a parameter. -/
def noneConn.ReadFrom
    (ReadFrom0 : noneConn → List (List Nat) → noneConn × Nat × Option Error)
    (c : noneConn) (r : List (List Nat)) : noneConn × Nat × Option Error :=
  if c.handshake then
    ReadFrom0 c r
  else
    let x := bufio.Copy c.Conn r
    ({ c with Conn := x.1 }, x.2.1, x.2.2)

/-- Successive `Write` calls on a session, one per payload; returns the session after
the last call. -/
def noneConn.writeAll (c : noneConn) : List (List Nat) → noneConn
  | [] => c
  | b :: bs => noneConn.writeAll (c.Write b).1 bs

/-! ## The null method: client datagram session -/

/-- The session `nonePacketConn`, which only wraps the connection. -/
structure nonePacketConn where
  Conn : NetConn
  deriving DecidableEq, Repr

/-- The method `WritePacket`: prepend the header of the destination to the buffer
and write the buffer to the connection in one `Write` (`buffer.WriteTo(c)`). -/
def nonePacketConn.WritePacket (c : nonePacketConn) (buffer : List Nat)
    (destination : Socksaddr) : nonePacketConn × Option Error :=
  match SocksaddrSerializer.WriteAddrPortHeader buffer destination with
  | .error err => (c, some err)
  | .ok buffer =>
    let w := c.Conn.Write buffer
    ({ c with Conn := w.1 }, w.2.2)

/-- The method `WriteTo`: `addr` is the destination (`M.SocksaddrFromNet(addr)`).
A fresh buffer of the size of header and payload receives the header, then the
payload, and the method returns `len(p)`. -/
def nonePacketConn.WriteTo (c : nonePacketConn) (p : List Nat) (addr : Socksaddr) :
    nonePacketConn × Nat × Option Error :=
  let destination := addr
  match SocksaddrSerializer.WriteAddrPortBuffer [] destination with
  | .error err => (c, 0, some err)
  | .ok buffer =>
    let _buffer := buffer ++ p
    (c, p.length, none)

/-! ## The relay service (`NoneService`) and the reply router -/

/-- Modelled from the spec: the Routing Metadata (`M.Metadata`), with the protocol
tag, the source address and the parsed destination. -/
structure Metadata where
  Protocol : String
  Source : Socksaddr
  Destination : Socksaddr
  deriving DecidableEq, Repr

/-- Modelled from the spec: the shared listening socket of the relay
(`N.PacketConn`): `sent` logs every
datagram it accepted together with the address it was sent to, `faults` scripts
the coming `WritePacket` calls as in `NetConn`. -/
structure PacketConn where
  sent : List (List Nat × Socksaddr)
  faults : List (Option Error)
  deriving DecidableEq, Repr

/-- The next `WritePacket` on the listening socket succeeds. -/
def PacketConn.accepts (c : PacketConn) : Bool :=
  match c.faults with
  | some _ :: _ => false
  | _ => true

/-- `conn.WritePacket(buffer, destination)` on the listening socket. -/
def PacketConn.WritePacket (c : PacketConn) (buffer : List Nat) (destination : Socksaddr) :
    PacketConn × Option Error :=
  match c.faults with
  | [] => ({ c with sent := c.sent ++ [(buffer, destination)] }, none)
  | none :: rest => ({ sent := c.sent ++ [(buffer, destination)], faults := rest }, none)
  | some err :: rest => ({ c with faults := rest }, some err)

/-- The reply router `nonePacketWriter`: the listening socket and the physical
source address of the session. -/
structure nonePacketWriter where
  PacketConn : PacketConn
  sourceAddr : Socksaddr
  deriving DecidableEq, Repr

/-- The method `WritePacket` of the reply router: prepend the header of the
application-level destination, then write the datagram to the source address. -/
def nonePacketWriter.WritePacket (s : nonePacketWriter) (buffer : List Nat)
    (destination : Socksaddr) : nonePacketWriter × Option Error :=
  match SocksaddrSerializer.WriteAddrPortHeader buffer destination with
  | .error err => (s, some err)
  | .ok buffer =>
    let w := s.PacketConn.WritePacket buffer s.sourceAddr
    ({ s with PacketConn := w.1 }, w.2)

/-- The session key `metadata.Source.AddrPort()`: IP address and port of the source
(a source given by a domain name has no IP address). -/
def Socksaddr.AddrPort : Socksaddr → List Nat × Nat
  | .ipv4 ip port => (ip, port)
  | .fqdn _ port => ([], port)
  | .ipv6 ip port => (ip, port)

/-- Modelled from the spec: one registration with the session-eviction table, a
call of `udpnat.Service.NewPacket`: the session key, the reply router that the factory argument builds, the buffer (the
payload left after the header) and the metadata. -/
structure UdpPacket where
  key : List Nat × Nat
  writer : nonePacketWriter
  buffer : List Nat
  metadata : Metadata
  deriving DecidableEq, Repr

/-- Modelled from the spec: the dispatch handler (`Handler`). The field
`connections` logs the calls of its `NewConnection`, `answer` is the error it
returns for a call. -/
structure Handler where
  connections : List (NetConn × Metadata)
  answer : NetConn → Metadata → Option Error

/-- `handler.NewConnection(ctx, conn, metadata)`. -/
def Handler.NewConnection (h : Handler) (conn : NetConn) (metadata : Metadata) :
    Handler × Option Error :=
  ({ h with connections := h.connections ++ [(conn, metadata)] }, h.answer conn metadata)

/-- The service `NoneService`: the handler and the UDP session table, the latter
given by the log of the calls of its `NewPacket`. -/
structure NoneService where
  handler : Handler
  udp : List UdpPacket

/-- The method `NewConnection` of the service. -/
def NoneService.NewConnection (s : NoneService) (conn : NetConn) (metadata : Metadata) :
    NoneService × Option Error :=
  match SocksaddrSerializer.ReadAddrPortConn conn with
  | .error err => (s, some err)
  | .ok (destination, conn) =>
    let metadata := { metadata with Protocol := "shadowsocks", Destination := destination }
    let r := s.handler.NewConnection conn metadata
    ({ s with handler := r.1 }, r.2)

/-- The method `NewPacket` of the service. -/
def NoneService.NewPacket (s : NoneService) (conn : PacketConn) (buffer : List Nat)
    (metadata : Metadata) : NoneService × Option Error :=
  match SocksaddrSerializer.ReadAddrPort buffer with
  | .error err => (s, some err)
  | .ok (destination, buffer) =>
    let metadata := { metadata with Protocol := "shadowsocks", Destination := destination }
    ({ s with udp := s.udp ++ [{ key := metadata.Source.AddrPort,
                                 writer := { PacketConn := conn, sourceAddr := metadata.Source },
                                 buffer := buffer, metadata := metadata }] }, none)

/-! ## Lemmas about the key derivation loop -/

theorem md5_length (x : List Nat) : (md5 x).length = md5Size := by
  simp [md5, md5.wordBytes, md5Size]

theorem digestChain_length (password : List Nat) :
    ∀ (k : Nat) (prev : List Nat), (digestChain password k prev).length = md5Size * k := by
  intro k
  induction k with
  | zero => intro prev; simp [digestChain]
  | succ k ih =>
    intro prev
    simp only [digestChain, List.length_append, md5_length, ih]
    ring

theorem drop_length_sub_append (b d : List Nat) (hd : d.length = md5Size) :
    (b ++ d).drop ((b ++ d).length - md5Size) = d := by
  have h : (b ++ d).length - md5Size = b.length := by
    simp [List.length_append, hd]
  rw [h, List.drop_left]

theorem Key_loop_spec (password : List Nat) (n : Nat) :
    ∀ (rounds : Nat) (b prev : List Nat), n ≤ b.length + md5Size * rounds →
      ∃ i, Key.loop password (n : Int) rounds b prev
            = some (b ++ digestChain password i prev)
          ∧ n ≤ b.length + md5Size * i := by
  intro rounds
  induction rounds with
  | zero =>
    intro b prev hn
    refine ⟨0, ?_, by simpa using hn⟩
    have : ¬ ((b.length : Int) < (n : Int)) := by
      simp only [Nat.mul_zero, Nat.add_zero] at hn
      omega
    simp [Key.loop, this, digestChain]
  | succ rounds ih =>
    intro b prev hn
    by_cases hlt : (b.length : Int) < (n : Int)
    · have hstep : Key.loop password (n : Int) (rounds + 1) b prev
          = Key.loop password (n : Int) rounds (b ++ md5 (prev ++ password))
              (md5 (prev ++ password)) := by
        simp only [Key.loop, hlt, if_true]
        rw [drop_length_sub_append b _ (md5_length _)]
      have hn' : n ≤ (b ++ md5 (prev ++ password)).length + md5Size * rounds := by
        simp only [List.length_append, md5_length]
        have : md5Size * (rounds + 1) = md5Size + md5Size * rounds := by ring
        omega
      obtain ⟨i, hi, hle⟩ := ih (b ++ md5 (prev ++ password)) (md5 (prev ++ password)) hn'
      refine ⟨i + 1, ?_, ?_⟩
      · rw [hstep, hi]
        simp [digestChain, List.append_assoc]
      · simp only [List.length_append, md5_length] at hle
        have : md5Size * (i + 1) = md5Size + md5Size * i := by ring
        omega
    · refine ⟨0, ?_, ?_⟩
      · simp [Key.loop, hlt, digestChain]
      · simp only [Nat.mul_zero, Nat.add_zero]
        omega

theorem digestChain_extends (password : List Nat) :
    ∀ (i k : Nat) (prev : List Nat), i ≤ k →
      ∃ t, digestChain password k prev = digestChain password i prev ++ t := by
  intro i
  induction i with
  | zero => intro k prev _; exact ⟨digestChain password k prev, by simp [digestChain]⟩
  | succ i ih =>
    intro k prev hik
    obtain ⟨k', rfl⟩ : ∃ k', k = k' + 1 := ⟨k - 1, by omega⟩
    obtain ⟨t, ht⟩ := ih k' (md5 (prev ++ password)) (by omega)
    exact ⟨t, by simp [digestChain, ht, List.append_assoc]⟩

theorem digestChain_take (password : List Nat) (n i k : Nat)
    (prev : List Nat) (hi : n ≤ md5Size * i) (hk : n ≤ md5Size * k) :
    (digestChain password i prev).take n = (digestChain password k prev).take n := by
  rcases Nat.le_total i k with hik | hki
  · obtain ⟨t, ht⟩ := digestChain_extends password i k prev hik
    rw [ht, List.take_append_of_le_length]
    rw [digestChain_length]; exact hi
  · obtain ⟨t, ht⟩ := digestChain_extends password k i prev hki
    rw [ht, List.take_append_of_le_length]
    rw [digestChain_length]; exact hk

theorem Key_eq_take_chain (password : List Nat) (n k : Nat)
    (hk : n ≤ md5Size * k) :
    Key password (n : Int) = .ok ((digestChain password k []).take n) := by
  have hfuel : n ≤ ([] : List Nat).length + md5Size * (n : Int).toNat := by
    simp [md5Size]; omega
  obtain ⟨i, hi, hle⟩ := Key_loop_spec password n (n : Int).toNat [] [] hfuel
  have hneg : ¬ ((n : Int) < 0) := by omega
  simp only [Int.toNat_ofNat] at hi
  simp only [Key, Int.toNat_ofNat, hi, hneg, if_false, List.nil_append]
  rw [digestChain_take password n i k [] (by simpa using hle) hk]

theorem md5_test_vector :
    md5 [116, 101, 115, 116]
      = [9, 143, 107, 205, 70, 33, 211, 115, 202, 222, 78, 131, 38, 39, 180, 246] := by
  decide

theorem md5_empty_vector :
    md5 [] = [212, 29, 140, 217, 143, 0, 178, 4, 233, 128, 9, 152, 236, 248, 66, 126] := by
  decide

set_option maxRecDepth 100000 in
theorem md5_two_block_vector :
    md5 (List.range 70)
      = [95, 31, 95, 100, 184, 68, 0, 251, 154, 214, 216, 236, 217, 193, 66, 160] := by
  decide

/-! ## Key derivation: the properties of the specification -/

/-- C1: for every password and all key sizes `0 ≤ n ≤ m`, both `Key(p, n)` and
`Key(p, m)` return a key, and the first is the first `n` bytes of the second. -/
theorem Key_shorter_is_take (password : List Nat) (n m : Nat) (hnm : n ≤ m) :
    ∃ kn km, Key password (n : Int) = .ok kn ∧ Key password (m : Int) = .ok km
      ∧ kn = km.take n := by
  have hm : m ≤ md5Size * m := by simp [md5Size]; omega
  refine ⟨_, _, Key_eq_take_chain password n m (le_trans hnm hm),
    Key_eq_take_chain password m m hm, ?_⟩
  rw [List.take_take, Nat.min_eq_left hnm]

theorem Key_shorter_is_take_witness :
    (5 : Nat) ≤ 40 ∧
    ∃ kn km, Key [116, 101, 115, 116] ((5 : Nat) : Int) = .ok kn
      ∧ Key [116, 101, 115, 116] ((40 : Nat) : Int) = .ok km ∧ kn = km.take 5 :=
  ⟨by decide, Key_shorter_is_take [116, 101, 115, 116] 5 40 (by decide)⟩

/-- C2: for every password and key size `n ≥ 0`, `Key(p, n)` returns a key of exactly
`n` bytes, equal to the first `n` bytes of the digest chain `D1 ++ D2 ++ ...` with
`D1 = md5 p` and `D(i+1) = md5 (Di ++ p)` (however many digests are taken, as long
as they cover `n` bytes); `Key(p, 0)` is empty and `Key(p, n)` for `0 < n ≤ 16` is
the first `n` bytes of `md5 p`. -/
theorem Key_is_digest_chain (password : List Nat) (n : Nat) :
    ∃ key, Key password (n : Int) = .ok key ∧ key.length = n
      ∧ (∀ k, n ≤ md5Size * k → key = (digestChain password k []).take n)
      ∧ (n = 0 → key = [])
      ∧ (0 < n → n ≤ md5Size → key = (md5 password).take n)
      ∧ digestChain password 2 [] = md5 password ++ md5 (md5 password ++ password) := by
  have hn : n ≤ md5Size * n := by simp [md5Size]; omega
  refine ⟨_, Key_eq_take_chain password n n hn, ?_, ?_, ?_, ?_, ?_⟩
  · rw [List.length_take, digestChain_length]
    exact Nat.min_eq_left hn
  · intro k hk
    exact digestChain_take password n n k [] hn hk
  · intro h0
    subst h0
    simp
  · intro _ h16
    rw [digestChain_take password n n 1 [] hn (by simpa using h16)]
    simp [digestChain]
  · simp [digestChain]

theorem Key_is_digest_chain_witness :
    Key [116, 101, 115, 116] ((16 : Nat) : Int)
      = .ok [9, 143, 107, 205, 70, 33, 211, 115, 202, 222, 78, 131, 38, 39, 180, 246] := by
  obtain ⟨key, hkey, _, _, _, h16, _⟩ := Key_is_digest_chain [116, 101, 115, 116] 16
  rw [hkey, h16 (by decide) (by decide), md5_test_vector]
  rfl

/-! ## Lemmas about connections and the codec -/

theorem NetConn_Write_healthy (c : NetConn) (b : List Nat) (h : c.healthy = true) :
    (c.Write b).1.written = c.written ++ [b] ∧ (c.Write b).1.healthy = true
      ∧ (c.Write b).1.inbound = c.inbound ∧ (c.Write b).2 = (b.length, none) := by
  obtain ⟨written, faults, inbound⟩ := c
  cases faults with
  | nil => simp [NetConn.Write, NetConn.healthy]
  | cons f rest =>
    cases f with
    | none =>
      simp only [NetConn.healthy, List.all_cons, Option.isNone_none, Bool.true_and] at h
      simp [NetConn.Write, NetConn.healthy, h]
    | some f => simp [NetConn.healthy] at h

theorem writeAll_done (bs : List (List Nat)) :
    ∀ s : noneConn, s.handshake = true → s.Conn.healthy = true →
      (s.writeAll bs).Conn.written = s.Conn.written ++ bs
        ∧ (s.writeAll bs).Conn.healthy = true
        ∧ (s.writeAll bs).handshake = true
        ∧ (s.writeAll bs).destination = s.destination := by
  induction bs with
  | nil => intro s hs hh; simp [noneConn.writeAll, hs, hh]
  | cons b bs ih =>
    intro s hs hh
    obtain ⟨hw, hh', _, _⟩ := NetConn_Write_healthy s.Conn b hh
    have hstep : (s.Write b).1 = { s with Conn := (s.Conn.Write b).1 } := by
      simp [noneConn.Write, hs]
    obtain ⟨h1, h2, h3, h4⟩ := ih (s.Write b).1 (by rw [hstep]; exact hs) (by rw [hstep]; exact hh')
    simp only [noneConn.writeAll]
    refine ⟨?_, h2, h3, ?_⟩
    · rw [h1, hstep]; simp [hw]
    · rw [h4, hstep]

theorem writeAll_keeps_handshake (bs : List (List Nat)) :
    ∀ s : noneConn, s.handshake = true → (s.writeAll bs).handshake = true := by
  induction bs with
  | nil => intro s hs; simpa [noneConn.writeAll] using hs
  | cons b bs ih =>
    intro s hs
    simp only [noneConn.writeAll]
    apply ih
    simp [noneConn.Write, hs]

theorem readPort_portBytes (port : Nat) (rest : List Nat) (h : port < 65536) :
    readPort (portBytes port ++ rest) = port := by
  simp only [portBytes, List.cons_append, List.nil_append, readPort]
  omega

theorem ReadAddrPort_encode (d : Socksaddr) (p : List Nat) (hd : d.Valid = true) :
    SocksaddrSerializer.ReadAddrPort (SocksaddrSerializer.encode d ++ p) = .ok (d, p) := by
  cases d with
  | ipv4 ip port =>
    simp only [Socksaddr.Valid, Bool.and_eq_true, decide_eq_true_eq] at hd
    obtain ⟨hip, hport⟩ := hd
    have hlen : ¬ ((ip ++ (portBytes port ++ p)).length < 4 + 2) := by
      simp only [List.length_append, portBytes, List.length_cons, List.length_nil, hip]
      omega
    have htake : (ip ++ (portBytes port ++ p)).take 4 = ip := by
      rw [← hip, List.take_left]
    have hdrop : (ip ++ (portBytes port ++ p)).drop 4 = portBytes port ++ p := by
      rw [← hip, List.drop_left]
    have hdrop2 : (ip ++ (portBytes port ++ p)).drop (4 + 2) = p := by
      rw [← List.drop_drop, hdrop]; simp [portBytes]
    simp only [SocksaddrSerializer.encode, List.cons_append, List.append_assoc,
      SocksaddrSerializer.ReadAddrPort, if_true, hlen, if_false, htake, hdrop, hdrop2,
      readPort_portBytes port p hport]
  | fqdn name port =>
    simp only [Socksaddr.Valid, Bool.and_eq_true, decide_eq_true_eq] at hd
    obtain ⟨hname, hport⟩ := hd
    have hmod : name.length % 256 = name.length := Nat.mod_eq_of_lt (by omega)
    have hlen : ¬ ((name ++ (portBytes port ++ p)).length < name.length + 2) := by
      simp [portBytes]
    have hmax : ¬ (255 < name.length) := by omega
    have hdrop2 : (name ++ (portBytes port ++ p)).drop (name.length + 2) = p := by
      rw [← List.drop_drop, List.drop_left]; simp [portBytes]
    simp only [SocksaddrSerializer.encode, List.cons_append, List.append_assoc,
      SocksaddrSerializer.ReadAddrPort, hmod, hmax, hlen, if_false, List.take_left,
      List.drop_left, hdrop2, readPort_portBytes port p hport]
    simp
  | ipv6 ip port =>
    simp only [Socksaddr.Valid, Bool.and_eq_true, decide_eq_true_eq] at hd
    obtain ⟨hip, hport⟩ := hd
    have hlen : ¬ ((ip ++ (portBytes port ++ p)).length < 16 + 2) := by
      simp only [List.length_append, portBytes, List.length_cons, List.length_nil, hip]
      omega
    have htake : (ip ++ (portBytes port ++ p)).take 16 = ip := by
      rw [← hip, List.take_left]
    have hdrop : (ip ++ (portBytes port ++ p)).drop 16 = portBytes port ++ p := by
      rw [← hip, List.drop_left]
    have hdrop2 : (ip ++ (portBytes port ++ p)).drop (16 + 2) = p := by
      rw [← List.drop_drop, hdrop]; simp [portBytes]
    simp only [SocksaddrSerializer.encode, List.cons_append, List.append_assoc,
      SocksaddrSerializer.ReadAddrPort, hlen, if_false, htake, hdrop, hdrop2,
      readPort_portBytes port p hport]
    simp

theorem NetConn_Write_accepts (c : NetConn) (b : List Nat) (h : c.accepts = true) :
    (c.Write b).1 = { c with written := c.written ++ [b], faults := c.faults.tail }
      ∧ (c.Write b).2 = (b.length, none) := by
  obtain ⟨written, faults, inbound⟩ := c
  cases faults with
  | nil => simp [NetConn.Write]
  | cons f rest =>
    cases f with
    | none => simp [NetConn.Write]
    | some f => simp [NetConn.accepts] at h

theorem NetConn_Write_error (c : NetConn) (b : List Nat) :
    (c.Write b).2.2 = none ↔ c.accepts = true := by
  obtain ⟨written, faults, inbound⟩ := c
  cases faults with
  | nil => simp [NetConn.Write, NetConn.accepts]
  | cons f rest =>
    cases f with
    | none => simp [NetConn.Write, NetConn.accepts]
    | some f => simp [NetConn.Write, NetConn.accepts]

theorem PacketConn_WritePacket_accepts (c : PacketConn) (b : List Nat) (a : Socksaddr)
    (h : c.accepts = true) :
    c.WritePacket b a = ({ sent := c.sent ++ [(b, a)], faults := c.faults.tail }, none) := by
  obtain ⟨sent, faults⟩ := c
  cases faults with
  | nil => simp [PacketConn.WritePacket]
  | cons f rest =>
    cases f with
    | none => simp [PacketConn.WritePacket]
    | some f => simp [PacketConn.accepts] at h

/-! ## The client stream session: the properties of the specification -/

/-- C3: `DialEarlyConn(conn, d)` writes nothing, and after the payloads `b1 .. bk`
(at least one) are written with `Write` on the session it returns, with every
underlying write succeeding, the underlying connection has received exactly
`encode(d) ++ b1 ++ ... ++ bk`: its write log gained the header once, before the
first payload, and then the payloads, with no header again. -/
theorem DialEarlyConn_header_once (conn : NetConn) (d : Socksaddr) (b : List Nat)
    (bs : List (List Nat)) (hok : conn.healthy = true) :
    (NoneMethod.DialEarlyConn conn d).Conn = conn
      ∧ ((NoneMethod.DialEarlyConn conn d).writeAll (b :: bs)).Conn.written
          = conn.written ++ SocksaddrSerializer.encode d :: b :: bs
      ∧ ((NoneMethod.DialEarlyConn conn d).writeAll (b :: bs)).Conn.stream
          = conn.stream ++ SocksaddrSerializer.encode d ++ b ++ bs.flatten
      ∧ ((NoneMethod.DialEarlyConn conn d).writeAll (b :: bs)).handshake = true := by
  obtain ⟨hw1, hh1, _, he1⟩ := NetConn_Write_healthy conn (SocksaddrSerializer.encode d) hok
  obtain ⟨hw2, hh2, _, _⟩ :=
    NetConn_Write_healthy (conn.Write (SocksaddrSerializer.encode d)).1 b hh1
  have herr : (conn.Write (SocksaddrSerializer.encode d)).2.2 = none := by rw [he1]
  have hfirst : ((NoneMethod.DialEarlyConn conn d).Write b).1
      = { Conn := ((conn.Write (SocksaddrSerializer.encode d)).1.Write b).1,
          handshake := true, destination := d } := by
    simp [noneConn.Write, NoneMethod.DialEarlyConn, SocksaddrSerializer.WriteAddrPort, herr]
  obtain ⟨h1, _, h3, _⟩ := writeAll_done bs ((NoneMethod.DialEarlyConn conn d).Write b).1
    (by rw [hfirst]) (by rw [hfirst]; exact hh2)
  have hlog : ((NoneMethod.DialEarlyConn conn d).writeAll (b :: bs)).Conn.written
      = conn.written ++ SocksaddrSerializer.encode d :: b :: bs := by
    simp only [noneConn.writeAll]
    rw [h1, hfirst]
    simp [hw2, hw1]
  refine ⟨rfl, hlog, ?_, ?_⟩
  · simp [NetConn.stream, hlog]
  · simpa [noneConn.writeAll] using h3

theorem DialEarlyConn_header_once_witness :
    (NetConn.healthy ⟨[], [none, none], []⟩ = true)
      ∧ ((NoneMethod.DialEarlyConn ⟨[], [none, none], []⟩ (.ipv4 [10, 0, 0, 1] 443)).writeAll
          [[7, 8], [9]]).Conn.stream = [1, 10, 0, 0, 1, 1, 187, 7, 8, 9] := by
  refine ⟨by decide, ?_⟩
  have h := (DialEarlyConn_header_once ⟨[], [none, none], []⟩ (.ipv4 [10, 0, 0, 1] 443)
    [7, 8] [[9]] (by decide)).2.2.1
  rw [h]
  decide

/-- C4: the code at the failing input. On a session returned by `DialEarlyConn` with
nothing written yet, `ReadFrom` of a reader that yields the one byte `7` puts `7`
alone on the underlying connection; the address header `encode(d)` is not sent. -/
theorem ReadFrom_pending_sends_no_header
    (ReadFrom0 : noneConn → List (List Nat) → noneConn × Nat × Option Error) :
    (noneConn.ReadFrom ReadFrom0
        (NoneMethod.DialEarlyConn ⟨[], [], []⟩ (.ipv4 [10, 0, 0, 1] 443)) [[7]]).1.Conn.stream
      = [7]
    ∧ SocksaddrSerializer.encode (.ipv4 [10, 0, 0, 1] 443) ++ [7]
      = [1, 10, 0, 0, 1, 1, 187, 7]
    ∧ (noneConn.ReadFrom ReadFrom0
        (NoneMethod.DialEarlyConn ⟨[], [], []⟩ (.ipv4 [10, 0, 0, 1] 443)) [[7]]).1.handshake
      = false := by
  refine ⟨?_, by decide, ?_⟩
  · simp [noneConn.ReadFrom, NoneMethod.DialEarlyConn, bufio.Copy, NetConn.Write, NetConn.stream]
  · simp [noneConn.ReadFrom, NoneMethod.DialEarlyConn]

/-- C8: on a session whose handshake is pending, when the write of the address header
fails (after the connection took `f.accepted` bytes of it), `Write(b)` returns `n = 0`
and that error, the connection has received only that part of the header and no
byte of `b`, and the session stays pending: if the following writes succeed, the
next `Write(b2)` sends the whole header again and then `b2`. -/
theorem Write_header_failure (s : noneConn) (b : List Nat) (f : WriteFault)
    (rest : List (Option WriteFault)) (hs : s.handshake = false)
    (hf : s.Conn.faults = some f :: rest) :
    s.Write b
        = ({ Conn := { written := s.Conn.written
                          ++ [(SocksaddrSerializer.encode s.destination).take f.accepted],
                       faults := rest, inbound := s.Conn.inbound },
             handshake := false, destination := s.destination }, 0, some f.err)
      ∧ (rest.all Option.isNone = true → ∀ b2 : List Nat,
          ((s.Write b).1.Write b2).1.Conn.written
              = s.Conn.written ++ [(SocksaddrSerializer.encode s.destination).take f.accepted,
                  SocksaddrSerializer.encode s.destination, b2]
            ∧ ((s.Write b).1.Write b2).1.handshake = true
            ∧ ((s.Write b).1.Write b2).2 = (b2.length, none)) := by
  obtain ⟨⟨written, faults, inbound⟩, handshake, destination⟩ := s
  simp only at hs hf
  subst hs hf
  have hfail : noneConn.Write ⟨⟨written, some f :: rest, inbound⟩, false, destination⟩ b
      = ({ Conn := { written := written ++ [(SocksaddrSerializer.encode destination).take f.accepted],
                     faults := rest, inbound := inbound },
           handshake := false, destination := destination }, 0, some f.err) := by
    simp [noneConn.Write, SocksaddrSerializer.WriteAddrPort, NetConn.Write]
  refine ⟨hfail, ?_⟩
  intro hrest b2
  rw [hfail]
  have hh : NetConn.healthy ⟨written ++ [(SocksaddrSerializer.encode destination).take f.accepted],
      rest, inbound⟩ = true := by simpa [NetConn.healthy] using hrest
  obtain ⟨hw1, hh1, _, he1⟩ := NetConn_Write_healthy _ (SocksaddrSerializer.encode destination) hh
  obtain ⟨hw2, _, _, he2⟩ := NetConn_Write_healthy _ b2 hh1
  have herr : (NetConn.Write ⟨written ++ [(SocksaddrSerializer.encode destination).take f.accepted],
      rest, inbound⟩ (SocksaddrSerializer.encode destination)).2.2 = none := by rw [he1]
  simp only [noneConn.Write, SocksaddrSerializer.WriteAddrPort, herr, Bool.false_eq_true, if_false]
  refine ⟨?_, trivial, ?_⟩
  · rw [hw2, hw1]; simp
  · rw [he2]

theorem Write_header_failure_witness :
    (noneConn.Write ⟨⟨[], [some ⟨3, .transport 32⟩], []⟩, false, .ipv4 [10, 0, 0, 1] 443⟩ [7, 8])
        = (⟨⟨[[1, 10, 0]], [], []⟩, false, .ipv4 [10, 0, 0, 1] 443⟩, 0, some (.transport 32)) :=
  (Write_header_failure ⟨⟨[], [some ⟨3, .transport 32⟩], []⟩, false, .ipv4 [10, 0, 0, 1] 443⟩
    [7, 8] ⟨3, .transport 32⟩ [] rfl rfl).1

/-- C10: `DialConn(conn, d)` issues exactly one write on `conn`, of `encode(d)`, and
returns the error of that write (so it fails if and only if the write fails); on
success the connection has received `encode(d)` and nothing else, the session is
in the handshake-done state and stays there, and every later `Write(b)` is the
underlying `Write(b)`, with no header. -/
theorem DialConn_full_handshake (conn : NetConn) (d : Socksaddr) :
    (NoneMethod.DialConn conn d).1.Conn = (conn.Write (SocksaddrSerializer.encode d)).1
      ∧ (NoneMethod.DialConn conn d).2 = (conn.Write (SocksaddrSerializer.encode d)).2.2
      ∧ ((NoneMethod.DialConn conn d).2 = none ↔ conn.accepts = true)
      ∧ ((NoneMethod.DialConn conn d).2 = none →
          (NoneMethod.DialConn conn d).1.Conn.written
              = conn.written ++ [SocksaddrSerializer.encode d]
            ∧ (NoneMethod.DialConn conn d).1.handshake = true
            ∧ ∀ (bs : List (List Nat)) (b : List Nat),
                (((NoneMethod.DialConn conn d).1.writeAll bs).Write b).1.Conn
                    = (((NoneMethod.DialConn conn d).1.writeAll bs).Conn.Write b).1
                  ∧ (((NoneMethod.DialConn conn d).1.writeAll bs).Write b).2
                    = (((NoneMethod.DialConn conn d).1.writeAll bs).Conn.Write b).2
                  ∧ (((NoneMethod.DialConn conn d).1.writeAll bs).Write b).1.handshake = true) := by
  have hconn : (NoneMethod.DialConn conn d).1.Conn
      = (conn.Write (SocksaddrSerializer.encode d)).1 := by
    simp only [NoneMethod.DialConn, noneConn.clientHandshake, SocksaddrSerializer.WriteAddrPort]
    cases (conn.Write (SocksaddrSerializer.encode d)).2.2 <;> rfl
  have herr : (NoneMethod.DialConn conn d).2
      = (conn.Write (SocksaddrSerializer.encode d)).2.2 := by
    simp only [NoneMethod.DialConn, noneConn.clientHandshake, SocksaddrSerializer.WriteAddrPort]
    cases (conn.Write (SocksaddrSerializer.encode d)).2.2 <;> rfl
  have hflag : (NoneMethod.DialConn conn d).1.handshake = true := by
    simp only [NoneMethod.DialConn, noneConn.clientHandshake, SocksaddrSerializer.WriteAddrPort]
    cases (conn.Write (SocksaddrSerializer.encode d)).2.2 <;> rfl
  refine ⟨hconn, herr, ?_, ?_⟩
  · rw [herr]; exact NetConn_Write_error conn _
  · intro hnone
    have hacc : conn.accepts = true := (NetConn_Write_error conn _).1 (herr ▸ hnone)
    refine ⟨?_, hflag, ?_⟩
    · rw [hconn, (NetConn_Write_accepts conn _ hacc).1]
    · intro bs b
      have hdone := writeAll_keeps_handshake bs (NoneMethod.DialConn conn d).1 hflag
      simp [noneConn.Write, hdone]

theorem DialConn_full_handshake_witness :
    (NoneMethod.DialConn ⟨[], [], []⟩ (.ipv4 [10, 0, 0, 1] 443)).2 = none
      ∧ (NoneMethod.DialConn ⟨[], [], []⟩ (.ipv4 [10, 0, 0, 1] 443)).1.Conn.written
          = [] ++ [SocksaddrSerializer.encode (.ipv4 [10, 0, 0, 1] 443)]
      ∧ (NoneMethod.DialConn ⟨[], [], []⟩ (.ipv4 [10, 0, 0, 1] 443)).1.handshake = true :=
  ⟨by decide,
    ((DialConn_full_handshake ⟨[], [], []⟩ (.ipv4 [10, 0, 0, 1] 443)).2.2.2 (by decide)).1,
    ((DialConn_full_handshake ⟨[], [], []⟩ (.ipv4 [10, 0, 0, 1] 443)).2.2.2 (by decide)).2.1⟩

/-! ## The client datagram session and the relay: the properties of the specification -/

/-- C5: the code at every input. `WriteTo(p, a)` returns `len(p)` and no error, and
leaves the underlying connection as it was: it issues no write at all, so the
datagram `encode(a) ++ p` is never sent. -/
theorem WriteTo_issues_no_write (c : nonePacketConn) (p : List Nat) (a : Socksaddr) :
    c.WriteTo p a = (c, p.length, none)
      ∧ (nonePacketConn.WriteTo ⟨⟨[], [], []⟩⟩ [7, 8] (.ipv4 [10, 0, 0, 1] 443)).1.Conn.written = []
      ∧ (nonePacketConn.WritePacket ⟨⟨[], [], []⟩⟩ [7, 8] (.ipv4 [10, 0, 0, 1] 443)).1.Conn.written
          = [[1, 10, 0, 0, 1, 1, 187, 7, 8]] := by
  refine ⟨?_, by decide, by decide⟩
  simp [nonePacketConn.WriteTo, SocksaddrSerializer.WriteAddrPortBuffer]

/-- C6: for every destination satisfying the invariant of the data model and every
payload `p` (the empty one included), `WritePacket(p, d)` on a connection that
accepts the write sends the single datagram `encode(d) ++ p`, and `NewPacket` on
that datagram returns no error and makes one delivery to the UDP session layer,
with `metadata.Destination = d` and exactly `p` as the payload. -/
theorem WritePacket_NewPacket_roundtrip (c : nonePacketConn) (p : List Nat) (d : Socksaddr)
    (hd : d.Valid = true) (hok : c.Conn.accepts = true)
    (s : NoneService) (conn : PacketConn) (metadata : Metadata) :
    ∃ datagram : List Nat,
      c.WritePacket p d
          = ({ Conn := { c.Conn with written := c.Conn.written ++ [datagram],
                                     faults := c.Conn.faults.tail } }, none)
        ∧ datagram = SocksaddrSerializer.encode d ++ p
        ∧ (s.NewPacket conn datagram metadata).2 = none
        ∧ (s.NewPacket conn datagram metadata).1.handler = s.handler
        ∧ (s.NewPacket conn datagram metadata).1.udp
            = s.udp ++ [{ key := metadata.Source.AddrPort,
                          writer := { PacketConn := conn, sourceAddr := metadata.Source },
                          buffer := p,
                          metadata := { Protocol := "shadowsocks", Source := metadata.Source,
                                        Destination := d } }] := by
  obtain ⟨hw, he⟩ := NetConn_Write_accepts c.Conn (SocksaddrSerializer.encode d ++ p) hok
  refine ⟨SocksaddrSerializer.encode d ++ p, ?_, rfl, ?_, ?_, ?_⟩
  · simp [nonePacketConn.WritePacket, SocksaddrSerializer.WriteAddrPortHeader, hw, he]
  · simp [NoneService.NewPacket, ReadAddrPort_encode d p hd]
  · simp [NoneService.NewPacket, ReadAddrPort_encode d p hd]
  · simp [NoneService.NewPacket, ReadAddrPort_encode d p hd]

theorem WritePacket_NewPacket_roundtrip_witness :
    Socksaddr.Valid (.fqdn [101, 120] 443) = true ∧ NetConn.accepts ⟨[], [], []⟩ = true
      ∧ ∃ datagram : List Nat,
        nonePacketConn.WritePacket ⟨⟨[], [], []⟩⟩ [] (.fqdn [101, 120] 443)
            = ({ Conn := { written := [] ++ [datagram], faults := [], inbound := [] } }, none)
          ∧ datagram = SocksaddrSerializer.encode (.fqdn [101, 120] 443) ++ []
          ∧ (NoneService.NewPacket ⟨⟨[], fun _ _ => none⟩, []⟩ ⟨[], []⟩ datagram
                ⟨"", .ipv4 [192, 168, 0, 9] 5000, .ipv4 [0, 0, 0, 0] 0⟩).2 = none
          ∧ (NoneService.NewPacket ⟨⟨[], fun _ _ => none⟩, []⟩ ⟨[], []⟩ datagram
                ⟨"", .ipv4 [192, 168, 0, 9] 5000, .ipv4 [0, 0, 0, 0] 0⟩).1.handler
              = ⟨[], fun _ _ => none⟩
          ∧ (NoneService.NewPacket ⟨⟨[], fun _ _ => none⟩, []⟩ ⟨[], []⟩ datagram
                ⟨"", .ipv4 [192, 168, 0, 9] 5000, .ipv4 [0, 0, 0, 0] 0⟩).1.udp
              = [] ++ [{ key := ([192, 168, 0, 9], 5000),
                         writer := { PacketConn := ⟨[], []⟩,
                                     sourceAddr := .ipv4 [192, 168, 0, 9] 5000 },
                         buffer := [],
                         metadata := { Protocol := "shadowsocks",
                                       Source := .ipv4 [192, 168, 0, 9] 5000,
                                       Destination := .fqdn [101, 120] 443 } }] :=
  ⟨by decide, by decide,
    WritePacket_NewPacket_roundtrip ⟨⟨[], [], []⟩⟩ [] (.fqdn [101, 120] 443) (by decide)
      (by decide) ⟨⟨[], fun _ _ => none⟩, []⟩ ⟨[], []⟩
      ⟨"", .ipv4 [192, 168, 0, 9] 5000, .ipv4 [0, 0, 0, 0] 0⟩⟩

/-- C7: when `NewPacket` accepts a datagram whose metadata names the physical source
`S`, the reply router it hands to the session table is bound to `S`, and for every
reply payload `p` and application-level destination `d` its `WritePacket(p, d)` is
the call `WritePacket(encode(d) ++ p, S)` on the listening socket: when the socket
accepts it, the datagram `encode(d) ++ p` goes out addressed to `S`, whatever `d`
is. -/
theorem reply_router_targets_source (s : NoneService) (conn : PacketConn) (buffer : List Nat)
    (metadata : Metadata) (destination : Socksaddr) (payload : List Nat)
    (hdec : SocksaddrSerializer.ReadAddrPort buffer = .ok (destination, payload))
    (p : List Nat) (d : Socksaddr) :
    ∃ pkt : UdpPacket,
      (s.NewPacket conn buffer metadata).1.udp = s.udp ++ [pkt]
        ∧ pkt.writer = { PacketConn := conn, sourceAddr := metadata.Source }
        ∧ (pkt.writer.WritePacket p d).1.sourceAddr = metadata.Source
        ∧ (pkt.writer.WritePacket p d).1.PacketConn
            = (conn.WritePacket (SocksaddrSerializer.encode d ++ p) metadata.Source).1
        ∧ (pkt.writer.WritePacket p d).2
            = (conn.WritePacket (SocksaddrSerializer.encode d ++ p) metadata.Source).2
        ∧ (conn.accepts = true →
            (pkt.writer.WritePacket p d).1.PacketConn.sent
                = conn.sent ++ [(SocksaddrSerializer.encode d ++ p, metadata.Source)]
              ∧ (pkt.writer.WritePacket p d).2 = none) := by
  refine ⟨{ key := metadata.Source.AddrPort,
            writer := { PacketConn := conn, sourceAddr := metadata.Source },
            buffer := payload,
            metadata := { Protocol := "shadowsocks", Source := metadata.Source,
                          Destination := destination } }, ?_, rfl, ?_, ?_, ?_, ?_⟩
  · simp [NoneService.NewPacket, hdec]
  · simp [nonePacketWriter.WritePacket, SocksaddrSerializer.WriteAddrPortHeader]
  · simp [nonePacketWriter.WritePacket, SocksaddrSerializer.WriteAddrPortHeader]
  · simp [nonePacketWriter.WritePacket, SocksaddrSerializer.WriteAddrPortHeader]
  · intro hacc
    simp [nonePacketWriter.WritePacket, SocksaddrSerializer.WriteAddrPortHeader,
      PacketConn_WritePacket_accepts conn _ _ hacc]

theorem reply_router_targets_source_witness :
    (∃ pkt : UdpPacket,
      (NoneService.NewPacket ⟨⟨[], fun _ _ => none⟩, []⟩ ⟨[], []⟩ [1, 8, 8, 8, 8, 0, 53, 7]
          ⟨"", .ipv4 [192, 168, 0, 9] 5000, .ipv4 [0, 0, 0, 0] 0⟩).1.udp = [] ++ [pkt]
        ∧ (pkt.writer.WritePacket [42] (.ipv4 [8, 8, 8, 8] 53)).1.PacketConn.sent
            = [([1, 8, 8, 8, 8, 0, 53, 42], .ipv4 [192, 168, 0, 9] 5000)])
    ∧ (∃ pkt : UdpPacket,
      (NoneService.NewPacket ⟨⟨[], fun _ _ => none⟩, []⟩ ⟨[], []⟩ [1, 8, 8, 8, 8, 0, 53, 7]
          ⟨"", .ipv4 [192, 168, 0, 77] 6000, .ipv4 [0, 0, 0, 0] 0⟩).1.udp = [] ++ [pkt]
        ∧ (pkt.writer.WritePacket [42] (.ipv4 [8, 8, 8, 8] 53)).1.PacketConn.sent
            = [([1, 8, 8, 8, 8, 0, 53, 42], .ipv4 [192, 168, 0, 77] 6000)]) := by
  constructor
  · obtain ⟨pkt, h1, _, _, _, _, h6⟩ :=
      reply_router_targets_source ⟨⟨[], fun _ _ => none⟩, []⟩ ⟨[], []⟩ [1, 8, 8, 8, 8, 0, 53, 7]
        ⟨"", .ipv4 [192, 168, 0, 9] 5000, .ipv4 [0, 0, 0, 0] 0⟩ (.ipv4 [8, 8, 8, 8] 53) [7]
        rfl [42] (.ipv4 [8, 8, 8, 8] 53)
    exact ⟨pkt, h1, (h6 (by decide)).1⟩
  · obtain ⟨pkt, h1, _, _, _, _, h6⟩ :=
      reply_router_targets_source ⟨⟨[], fun _ _ => none⟩, []⟩ ⟨[], []⟩ [1, 8, 8, 8, 8, 0, 53, 7]
        ⟨"", .ipv4 [192, 168, 0, 77] 6000, .ipv4 [0, 0, 0, 0] 0⟩ (.ipv4 [8, 8, 8, 8] 53) [7]
        rfl [42] (.ipv4 [8, 8, 8, 8] 53)
    exact ⟨pkt, h1, (h6 (by decide)).1⟩

/-- C9: both relay entry points gate the delivery on the decoding of the address
header. When the decoding fails, `NewConnection` and `NewPacket` return the decode
error and the handler and the UDP session table are left untouched; when it
succeeds, exactly one delivery is made (to the handler's `NewConnection`, whose
answer is returned, or to the session table's `NewPacket`, with no error), with
`Protocol = "shadowsocks"`, `Destination` the decoded address and `Source`
unchanged. A domain header whose declared length exceeds the remaining bytes is
such a decoding failure. -/
theorem relay_delivers_only_decoded (s : NoneService) (conn : NetConn) (pconn : PacketConn)
    (buffer : List Nat) (metadata : Metadata) :
    (∀ err, SocksaddrSerializer.ReadAddrPort conn.inbound = .error err →
        s.NewConnection conn metadata = (s, some err))
      ∧ (∀ d rest, SocksaddrSerializer.ReadAddrPort conn.inbound = .ok (d, rest) →
          (s.NewConnection conn metadata).1.handler.connections
              = s.handler.connections
                ++ [({ conn with inbound := rest },
                     { Protocol := "shadowsocks", Source := metadata.Source, Destination := d })]
            ∧ (s.NewConnection conn metadata).1.udp = s.udp
            ∧ (s.NewConnection conn metadata).2
                = s.handler.answer { conn with inbound := rest }
                    { Protocol := "shadowsocks", Source := metadata.Source, Destination := d })
      ∧ (∀ err, SocksaddrSerializer.ReadAddrPort buffer = .error err →
          s.NewPacket pconn buffer metadata = (s, some err))
      ∧ (∀ d rest, SocksaddrSerializer.ReadAddrPort buffer = .ok (d, rest) →
          (s.NewPacket pconn buffer metadata).1.udp
              = s.udp ++ [{ key := metadata.Source.AddrPort,
                            writer := { PacketConn := pconn, sourceAddr := metadata.Source },
                            buffer := rest,
                            metadata := { Protocol := "shadowsocks", Source := metadata.Source,
                                          Destination := d } }]
            ∧ (s.NewPacket pconn buffer metadata).1.handler = s.handler
            ∧ (s.NewPacket pconn buffer metadata).2 = none)
      ∧ (∀ (len : Nat) (remaining : List Nat), remaining.length < len →
          ∃ err, SocksaddrSerializer.ReadAddrPort (3 :: len :: remaining) = .error err) := by
  refine ⟨?_, ?_, ?_, ?_, ?_⟩
  · intro err h
    simp [NoneService.NewConnection, SocksaddrSerializer.ReadAddrPortConn, h]
  · intro d rest h
    simp [NoneService.NewConnection, SocksaddrSerializer.ReadAddrPortConn, h,
      Handler.NewConnection]
  · intro err h
    simp [NoneService.NewPacket, h]
  · intro d rest h
    simp [NoneService.NewPacket, h]
  · intro len remaining hlt
    by_cases hmax : 255 < len
    · exact ⟨.domainTooLong len, by simp [SocksaddrSerializer.ReadAddrPort, hmax]⟩
    · have hshort : remaining.length < len + 2 := by omega
      exact ⟨.eof, by simp [SocksaddrSerializer.ReadAddrPort, hmax, hshort]⟩

theorem relay_delivers_only_decoded_witness :
    NoneService.NewPacket ⟨⟨[], fun _ _ => none⟩, []⟩ ⟨[], []⟩ [3, 5, 101, 120]
        ⟨"", .ipv4 [192, 168, 0, 9] 5000, .ipv4 [0, 0, 0, 0] 0⟩
      = (⟨⟨[], fun _ _ => none⟩, []⟩, some .eof)
    ∧ (NoneService.NewConnection ⟨⟨[], fun _ _ => none⟩, []⟩ ⟨[], [], [1, 8, 8, 8, 8, 0, 53, 7]⟩
        ⟨"", .ipv4 [192, 168, 0, 9] 5000, .ipv4 [0, 0, 0, 0] 0⟩).1.handler.connections
      = [] ++ [(⟨[], [], [7]⟩, ⟨"shadowsocks", .ipv4 [192, 168, 0, 9] 5000, .ipv4 [8, 8, 8, 8] 53⟩)] :=
  ⟨(relay_delivers_only_decoded ⟨⟨[], fun _ _ => none⟩, []⟩ ⟨[], [], []⟩ ⟨[], []⟩ [3, 5, 101, 120]
      ⟨"", .ipv4 [192, 168, 0, 9] 5000, .ipv4 [0, 0, 0, 0] 0⟩).2.2.1 .eof rfl,
   ((relay_delivers_only_decoded ⟨⟨[], fun _ _ => none⟩, []⟩ ⟨[], [], [1, 8, 8, 8, 8, 0, 53, 7]⟩
      ⟨[], []⟩ [] ⟨"", .ipv4 [192, 168, 0, 9] 5000, .ipv4 [0, 0, 0, 0] 0⟩).2.1
      (.ipv4 [8, 8, 8, 8] 53) [7] rfl).1⟩

end Shadowsocks
